import Mathlib

/-!
Verification of the OD600 plate-reader data processor (process_growth_data.py).

The script parses a semi-structured plate-reader export (CSV lines or Excel
sheets) into a flat list of (well, time, optical-density) observations and
optionally left-joins a well-to-condition mapping onto it.

The embedding below translates the Python source shallowly:

* Python strings are Lean `String`s; `str.strip`, `str.split(',')`,
  `str.startswith` and `str.isspace` are modelled character-by-character
  (`pyStrip`, `pySplitComma`, `pyStartsWith`, `pyIsSpace`) with structural
  recursion so that every definition evaluates inside the kernel.
* Python floats are modelled as exact rationals (`ℚ`): `float(tok)` becomes
  `pyFloat? tok : Option ℚ`, where `none` stands for a raised `ValueError`.
  The IEEE-754 rounding of a parsed literal is not modelled; all claims here
  are about which tokens parse and about the `time_h = time_s / 3600`
  relation, which the code establishes by computing the very same division
  expression it stores.
* `sys.exit(1)` (a fatal run) becomes an `Option`-valued result: `none` is
  the aborted run, `some xs` the produced table.
* The `print` warnings issued for unconvertible OD tokens are modelled by
  parallel `*Warn`/`*_warnings` functions returning the offending tokens.
-/

/-- Whitespace test for a character, as Python's `str.strip`/`str.isspace`
use it (space, tab, newline, carriage return). -/
def pyWS (c : Char) : Bool :=
  c = ' ' || c = '\t' || c = '\n' || c = '\r'

/-- Characters of a string with leading and trailing whitespace removed. -/
def stripChars (cs : List Char) : List Char :=
  ((cs.dropWhile pyWS).reverse.dropWhile pyWS).reverse

/-- Models Python `str.strip()`. -/
def pyStrip (s : String) : String := ⟨stripChars s.data⟩

/-- Split a character list at every occurrence of `sep`; the separator is not
kept.  `[]` yields `[[]]`, matching Python's `"".split(sep) == ['']`. -/
def splitOnChar (sep : Char) : List Char → List (List Char)
  | [] => [[]]
  | c :: cs =>
    match splitOnChar sep cs with
    | [] => [[]]
    | h :: t => if c = sep then [] :: h :: t else (c :: h) :: t

/-- Models Python `str.split(',')`. -/
def pySplitComma (s : String) : List String :=
  (splitOnChar ',' s.data).map fun cs => ⟨cs⟩

/-- Models Python `str.startswith(pre)`. -/
def pyStartsWith (s pre : String) : Bool :=
  pre.data.isPrefixOf s.data

/-- Models Python `str.isspace()`: nonempty and every character whitespace. -/
def pyIsSpace (s : String) : Bool :=
  !s.data.isEmpty && s.data.all pyWS

/-- Value of a string of decimal digits, most significant first. -/
def digitsVal (cs : List Char) : ℕ :=
  cs.foldl (fun a c => 10 * a + (c.toNat - 48)) 0

/-- Models Python `float(tok)`: `none` is a raised `ValueError`.  The accepted
shape is optional surrounding whitespace, an optional sign, a decimal mantissa
with at least one digit (`12`, `1.`, `.5`, `3.25`), and an optional
`e`/`E`-exponent with optional sign.  The value is the exact rational the
literal denotes (the rounding to the nearest IEEE-754 double is not modelled;
`inf`/`nan`/underscore spellings are out of scope of the claims). -/
def pyFloat? (s : String) : Option ℚ :=
  let cs := stripChars s.data
  let sgn : Int := match cs with
    | '-' :: _ => -1
    | _ => 1
  let cs1 := match cs with
    | '-' :: rest => rest
    | '+' :: rest => rest
    | _ => cs
  let ip := cs1.takeWhile Char.isDigit
  let cs2 := cs1.dropWhile Char.isDigit
  let fp := match cs2 with
    | '.' :: rest => rest.takeWhile Char.isDigit
    | _ => []
  let cs3 := match cs2 with
    | '.' :: rest => rest.dropWhile Char.isDigit
    | _ => cs2
  if ip.isEmpty && fp.isEmpty then none
  else
    let mantNum : Int := sgn * (digitsVal ip * 10 ^ fp.length + digitsVal fp)
    let mantDen : ℕ := 10 ^ fp.length
    match cs3 with
    | [] => some (Rat.divInt mantNum mantDen)
    | e :: rest =>
      if e = 'e' || e = 'E' then
        let eneg : Bool := match rest with
          | '-' :: _ => true
          | _ => false
        let rest1 := match rest with
          | '-' :: r => r
          | '+' :: r => r
          | _ => rest
        let ed := rest1.takeWhile Char.isDigit
        let rest2 := rest1.dropWhile Char.isDigit
        if ed.isEmpty || !rest2.isEmpty then none
        else if eneg then some (Rat.divInt mantNum (mantDen * 10 ^ digitsVal ed))
        else some (Rat.divInt (mantNum * 10 ^ digitsVal ed) mantDen)
      else none

/-- One observation record, as built by `process_cycle_data` and the Excel
loop: the dictionary with keys `Well`, `Time_s`, `Time_h`, `OD`. -/
structure Obs where
  well : String
  time_s : ℚ
  time_h : ℚ
  od : ℚ
deriving DecidableEq

/-- Models `re.match(r'^[A-H]$', s)`: the whole string is one letter A–H. -/
def isRowLetterExact (s : String) : Bool :=
  match s.data with
  | [c] => 'A' ≤ c && c ≤ 'H'
  | _ => false

/-- Models `re.match(r'^[A-H],', line)`: a raw CSV line opening a data row. -/
def isDataRowLine (s : String) : Bool :=
  match s.data with
  | c :: c2 :: _ => ('A' ≤ c && c ≤ 'H') && c2 = ','
  | _ => false

/-- One cell of a CSV data row inside `process_cycle_data`: the pair is the
1-based column index with the raw token (`enumerate(parts[1:13], 1)`).  An
empty or all-whitespace token is skipped; a token that fails `float` is
skipped with a warning (see `cycleCellWarn`); otherwise one observation is
produced with well `row_id + str(col_idx)` and `time_h = time_value/3600`. -/
def cycleCellObs (row_id : String) (t : ℚ) (p : ℕ × String) : List Obs :=
  if p.2.data.isEmpty || pyIsSpace p.2 then []
  else
    match pyFloat? p.2 with
    | some od => [⟨row_id ++ toString p.1, t, t / 3600, od⟩]
    | none => []

/-- The `Could not convert OD value` warnings of one CSV cell. -/
def cycleCellWarn (p : ℕ × String) : List String :=
  if p.2.data.isEmpty || pyIsSpace p.2 then []
  else
    match pyFloat? p.2 with
    | some _ => []
    | none => [p.2]

/-- Observations of one split CSV data row inside `process_cycle_data`:
`parts[0]` must match `^[A-H]$`, and columns `parts[1:13]` are enumerated
from 1. -/
def cyclePartsObs (parts : List String) (t : ℚ) : List Obs :=
  match parts with
  | [] => []
  | row_id :: rest =>
    if isRowLetterExact row_id then
      (List.enumFrom 1 (rest.take 12)).flatMap (cycleCellObs row_id t)
    else []

/-- Warnings of one split CSV data row inside `process_cycle_data`. -/
def cyclePartsWarn (parts : List String) : List String :=
  match parts with
  | [] => []
  | row_id :: rest =>
    if isRowLetterExact row_id then
      (List.enumFrom 1 (rest.take 12)).flatMap cycleCellWarn
    else []

/-- `process_cycle_data(data_rows, time_value)` from the source: each line is
stripped, split on commas and turned into observations cell by cell. -/
def process_cycle_data (data_rows : List String) (time_value : ℚ) : List Obs :=
  data_rows.flatMap fun line => cyclePartsObs (pySplitComma (pyStrip line)) time_value

/-- The warnings `process_cycle_data` prints while processing `data_rows`. -/
def cycle_warnings (data_rows : List String) : List String :=
  data_rows.flatMap fun line => cyclePartsWarn (pySplitComma (pyStrip line))

/-- The second cell of a (stripped, comma-split) time-marker line, stripped;
`none` when the cell is absent or empty.  This is the token handed to
`float` both in `extract_time_values` and in the `process_csv_data` loop. -/
def csvTimeToken (line : String) : Option String :=
  match (pySplitComma (pyStrip line)).drop 1 with
  | [] => none
  | p :: _ => if (pyStrip p).data.isEmpty then none else some (pyStrip p)

/-- `extract_time_values(lines)` from the source.  The first `Time [s]` line
is tried alone; when it yields nothing, every `Time [s]` line is scanned and
all parseable second cells are collected.  An empty collection is the fatal
`sys.exit(1)`, modelled as `none`. -/
def extract_time_values (lines : List String) : Option (List ℚ) :=
  let markers := lines.filter fun l => pyStartsWith l "Time [s]"
  match markers with
  | [] => none
  | first :: _ =>
    let tv :=
      match (csvTimeToken first).bind pyFloat? with
      | some v => [v]
      | none => markers.filterMap fun l => (csvTimeToken l).bind pyFloat?
    if tv.isEmpty then none else some tv

/-- The loop state of `process_csv_data`: the accumulated observations, the
data rows of the currently open cycle, and `current_time` (unset is `none`). -/
structure CsvState where
  all_data : List Obs
  cycle : List String
  time : Option ℚ
deriving DecidableEq

/-- Closing of the open cycle at a cycle boundary: the pending rows are
processed only when there is at least one and `current_time` is set. -/
def flushCsv (st : CsvState) : CsvState :=
  if !st.cycle.isEmpty && st.time.isSome then
    { st with
      all_data := st.all_data ++ process_cycle_data st.cycle (st.time.getD 0)
      cycle := [] }
  else st

/-- One iteration of the `process_csv_data` line loop.  On a `Time [s]` line
the open cycle is flushed, then the time cell is read: a parseable cell sets
`current_time`, a cell that raises `ValueError` clears it, and an absent or
empty cell leaves it untouched.  A `^[A-H],` line is collected only while
`current_time` is set.  Every other line is ignored. -/
def csvStep (st : CsvState) (line : String) : CsvState :=
  if pyStartsWith line "Time [s]" then
    let st1 := flushCsv st
    match csvTimeToken line with
    | some tok =>
      match pyFloat? tok with
      | some t => { st1 with time := some t }
      | none => { st1 with time := none }
    | none => st1
  else if isDataRowLine line then
    if st.time.isSome then { st with cycle := st.cycle ++ [line] } else st
  else st

/-- `process_csv_data(lines)` from the source, minus the file I/O: `none` is
`sys.exit(1)` (either `extract_time_values` failed or no observation was
produced), `some` is the assembled table in construction order. -/
def process_csv_data (lines : List String) : Option (List Obs) :=
  match extract_time_values lines with
  | none => none
  | some _ =>
    let st := lines.foldl csvStep ⟨[], [], none⟩
    let fin := flushCsv st
    if fin.all_data.isEmpty then none else some fin.all_data

/-- One cell of a sheet as `pd.read_excel(..., header=None)` delivers it: a
string, a number, or the `NaN` of an empty cell (`Cell.blank`). -/
inductive Cell where
  | str (s : String)
  | num (q : ℚ)
  | blank
deriving DecidableEq

/-- One Excel sheet: the rows of the raw, headerless cell grid. -/
def Sheet : Type := List (List Cell)

/-- `df.shape[0]` of a sheet. -/
def nrows (sh : Sheet) : ℕ := sh.length

/-- `df.shape[1]` of a sheet: pandas pads every row to the longest one. -/
def ncols (sh : Sheet) : ℕ := sh.foldl (fun a r => max a r.length) 0

/-- `df.iloc[i, j]`: positions pandas padded, and positions outside the
grid, hold `NaN`. -/
def cellAt (sh : Sheet) (i j : ℕ) : Cell := (sh.getD i []).getD j Cell.blank

/-- Substring test: does `pat` occur anywhere in `s`?  Models Python's
`pat in s`. -/
def containsSub (s pat : String) : Bool :=
  s.data.tails.any fun t => pat.data.isPrefixOf t

/-- `isinstance(row[0], str) and 'Time [s]' in row[0]`. -/
def isTimeMarkerCell : Cell → Bool
  | .str s => containsSub s "Time [s]"
  | _ => false

/-- `float(cell)` on an Excel cell: numbers convert as themselves, strings go
through the Python float parser, `NaN` never reaches `float` (it is filtered
by `pd.notna`/`pd.isna` first, which `none` also covers). -/
def cellFloat? : Cell → Option ℚ
  | .str s => pyFloat? s
  | .num q => some q
  | .blank => none

/-- The `(cycle_starts, time_points)` scan of one sheet: every row whose
first cell contains `Time [s]` and whose second cell is non-NaN and converts
to a float starts a cycle. -/
def excelCycles (sh : Sheet) : List (ℕ × ℚ) :=
  (List.range (nrows sh)).filterMap fun idx =>
    if isTimeMarkerCell (cellAt sh idx 0) then
      (cellFloat? (cellAt sh idx 1)).map fun t => (idx, t)
    else none

/-- The bounded forward search for the data grid: the first row in the
window `[start_idx, start_idx + 10) ∩ [0, nrows)` whose first cell is a
string that strips to a bare row letter. -/
def findDataStart (sh : Sheet) (start_idx : ℕ) : Option ℕ :=
  (List.range' start_idx (min 10 (nrows sh - start_idx))).find? fun i =>
    match cellAt sh i 0 with
    | .str s => isRowLetterExact (pyStrip s)
    | _ => false

/-- One well cell of an Excel data row: `NaN` is skipped silently, a
convertible cell yields one observation, an unconvertible one only a warning
(see `excelCellWarn`). -/
def excelCellObs (row_id : String) (t : ℚ) (col_idx : ℕ) (c : Cell) : List Obs :=
  match c with
  | .blank => []
  | c =>
    match cellFloat? c with
    | some od => [⟨row_id ++ toString col_idx, t, t / 3600, od⟩]
    | none => []

/-- The `Could not convert OD value` warnings of one Excel well cell. -/
def excelCellWarn (c : Cell) : List String :=
  match c with
  | .blank => []
  | .num _ => []
  | .str s =>
    match pyFloat? s with
    | some _ => []
    | none => [s]

/-- One data row of an Excel cycle: rows whose first cell is not a bare row
letter are skipped; columns `1 .. min(13, ncols) - 1` are read. -/
def excelRowObs (sh : Sheet) (t : ℚ) (row_idx : ℕ) : List Obs :=
  match cellAt sh row_idx 0 with
  | .str s =>
    if isRowLetterExact (pyStrip s) then
      (List.range' 1 (min 13 (ncols sh) - 1)).flatMap fun col_idx =>
        excelCellObs (pyStrip s) t col_idx (cellAt sh row_idx col_idx)
    else []
  | _ => []

/-- One cycle of an Excel sheet: at most 8 consecutive rows starting at the
located data start. -/
def excelCycleObs (sh : Sheet) (p : ℕ × ℚ) : List Obs :=
  match findDataStart sh p.1 with
  | none => []
  | some ds => (List.range' ds (min 8 (nrows sh - ds))).flatMap (excelRowObs sh p.2)

/-- All observations one sheet contributes.  A sheet with no time points is
skipped (`continue`), which is the empty contribution. -/
def excelSheetObs (sh : Sheet) : List Obs :=
  (excelCycles sh).flatMap (excelCycleObs sh)

/-- `process_excel_data` from the source, minus the file I/O: the sheets are
scanned independently and concatenated; an empty total is the fatal
`sys.exit(1)`, modelled as `none`. -/
def process_excel_data (sheets : List Sheet) : Option (List Obs) :=
  let all := sheets.flatMap excelSheetObs
  if all.isEmpty then none else some all

/-- One row of the well-to-condition mapping (`mapping_df[['Well','Condition']]`). -/
structure MapRow where
  well : String
  condition : String
deriving DecidableEq

/-- One row of the annotated table: the observation fields plus the
`Condition` column the left join added (`none` is pandas `NaN`). -/
structure ObsC where
  well : String
  time_s : ℚ
  time_h : ℚ
  od : ℚ
  condition : Option String
deriving DecidableEq

/-- The observation part of an annotated row. -/
def obsOf (oc : ObsC) : Obs := ⟨oc.well, oc.time_s, oc.time_h, oc.od⟩

/-- `pd.merge(data_df, mapping_df[['Well','Condition']], on='Well',
how='left')`: every left row is kept in order; each matching mapping row (in
mapping order) contributes one output row carrying its condition; a left row
with no match survives once with `NaN` condition. -/
def merge_with_conditions (data : List Obs) (mapping : List MapRow) : List ObsC :=
  data.flatMap fun o =>
    let ms := mapping.filter fun m => m.well = o.well
    if ms.isEmpty then [⟨o.well, o.time_s, o.time_h, o.od, none⟩]
    else ms.map fun m => ⟨o.well, o.time_s, o.time_h, o.od, some m.condition⟩

/-- Models pandas `Series.unique()`: first-seen order, duplicates dropped. -/
def pdUnique (l : List String) : List String :=
  l.foldl (fun acc w => if w ∈ acc then acc else acc ++ [w]) []

/-- `merged_df[merged_df['Condition'].isna()]['Well'].unique()`: the distinct
wells of the merged table that got no condition, as warned about. -/
def unmappedWells (merged : List ObsC) : List String :=
  pdUnique ((merged.filter fun oc => oc.condition = none).map fun oc => oc.well)

/-- One row of the annotated table after a second merge with the mapping:
pandas suffixes the colliding `Condition` columns as `Condition_x` (from the
already-annotated table) and `Condition_y` (newly joined). -/
structure ObsC2 where
  well : String
  time_s : ℚ
  time_h : ℚ
  od : ℚ
  condition_x : Option String
  condition_y : Option String
deriving DecidableEq

/-- `pd.merge` of an already-annotated table with the mapping on `Well`,
`how='left'`: same join semantics as `merge_with_conditions`, with the old
condition carried along as `Condition_x`. -/
def remerge_with_conditions (data : List ObsC) (mapping : List MapRow) : List ObsC2 :=
  data.flatMap fun o =>
    let ms := mapping.filter fun m => m.well = o.well
    if ms.isEmpty then [⟨o.well, o.time_s, o.time_h, o.od, o.condition, none⟩]
    else ms.map fun m => ⟨o.well, o.time_s, o.time_h, o.od, o.condition, some m.condition⟩

/-- The mapping source as read from disk: named columns over string cells. -/
structure RawTable where
  cols : List String
  cells : List (List String)

/-- `load_mapping` from the source, minus the file I/O: the frame must expose
both a `Well` and a `Condition` column, otherwise the run aborts
(`sys.exit(1)`, modelled as `none`) before anything else happens. -/
def load_mapping (t : RawTable) : Option (List MapRow) :=
  if "Well" ∈ t.cols ∧ "Condition" ∈ t.cols then
    some (t.cells.map fun r =>
      ⟨r.getD (t.cols.indexOf "Well") "", r.getD (t.cols.indexOf "Condition") ""⟩)
  else none

/-- The `main` pipeline for a CSV input: the mapping (when given) is loaded
and validated first, then the input is parsed, then the join is applied.
`none` is an aborted run with nothing written. -/
def main_csv (mapt : Option RawTable) (lines : List String) : Option (List ObsC) :=
  match mapt with
  | none =>
    (process_csv_data lines).map fun obs =>
      obs.map fun o => ⟨o.well, o.time_s, o.time_h, o.od, none⟩
  | some t =>
    match load_mapping t with
    | none => none
    | some mp =>
      match process_csv_data lines with
      | none => none
      | some obs => if obs.isEmpty then none else some (merge_with_conditions obs mp)

/-- The `main` pipeline for an Excel input; mapping validation comes first,
exactly as in `main_csv`. -/
def main_excel (mapt : Option RawTable) (sheets : List Sheet) : Option (List ObsC) :=
  match mapt with
  | none =>
    (process_excel_data sheets).map fun obs =>
      obs.map fun o => ⟨o.well, o.time_s, o.time_h, o.od, none⟩
  | some t =>
    match load_mapping t with
    | none => none
    | some mp =>
      match process_excel_data sheets with
      | none => none
      | some obs => if obs.isEmpty then none else some (merge_with_conditions obs mp)

/-- A well token of the legal plate coordinate space: a row letter A–H
followed by the decimal numeral of a column 1–12 (no leading zero, since it
is the numeral of the column index itself). -/
def wellOk (w : String) : Prop :=
  ∃ (c : Char) (n : ℕ),
    'A' ≤ c ∧ c ≤ 'H' ∧ 1 ≤ n ∧ n ≤ 12 ∧ w = String.singleton c ++ toString n

/-- The two-cycle scenario input of the specification. -/
def scenLines : List String :=
  ["Time [s],0", "A,0.1,0.2", "B,0.3,", "Time [s],3600", "A,0.15,0.25"]

/-- The five observation rows the specification expects for `scenLines`. -/
def scenObs : List Obs :=
  [⟨"A1", 0, 0, 1/10⟩, ⟨"A2", 0, 0, 2/10⟩, ⟨"B1", 0, 0, 3/10⟩,
   ⟨"A1", 3600, 1, 15/100⟩, ⟨"A2", 3600, 1, 25/100⟩]

/-- Two strings with the same character data are equal. -/
theorem strData_ext {a b : String} (h : a.data = b.data) : a = b := by
  cases a; cases b; cases h; rfl

/-- Appending on the left is injective for strings. -/
theorem strAppend_left_inj (s : String) {a b : String} (h : a ≠ b) : s ++ a ≠ s ++ b := by
  intro he
  have hd := congrArg String.data he
  rw [String.data_append, String.data_append] at hd
  exact h (strData_ext (List.append_cancel_left hd))

/-- Decimal numerals of distinct column indices below 13 are distinct. -/
theorem toString_inj_below13 : ∀ j < 13, ∀ k < 13, j ≠ k → toString j ≠ toString k := by
  decide

/-- A string matching `^[A-H]$` is the singleton of a letter A–H. -/
theorem isRowLetterExact_iff {s : String} (h : isRowLetterExact s = true) :
    ∃ c : Char, 'A' ≤ c ∧ c ≤ 'H' ∧ s = String.singleton c := by
  unfold isRowLetterExact at h
  rcases hs : s.data with _ | ⟨c, _ | ⟨c2, tl⟩⟩ <;> rw [hs] at h
  · simp at h
  · simp only [Bool.and_eq_true, decide_eq_true_eq] at h
    exact ⟨c, h.1, h.2, strData_ext (by rw [hs]; rfl)⟩
  · simp at h

/-- C1: on the CSV input `Time [s],0` / `A,0.1,0.2` / `B,0.3,` /
`Time [s],3600` / `A,0.15,0.25` the pipeline produces exactly the five
observation rows (A1,0,0.0,0.1), (A2,0,0.0,0.2), (B1,0,0.0,0.3),
(A1,3600,1.0,0.15), (A2,3600,1.0,0.25), in row/column scan order within
each cycle; B2 is absent because its token is blank. -/
theorem c1_two_cycle_scenario : process_csv_data scenLines = some scenObs := by
  with_unfolding_all rfl

/-- Flushing the open cycle never changes `current_time`. -/
theorem flushCsv_time (st : CsvState) : (flushCsv st).time = st.time := by
  unfold flushCsv; split <;> rfl

/-- Flushing with an unset `current_time` changes nothing. -/
theorem flushCsv_of_time_none {st : CsvState} (h : st.time = none) : flushCsv st = st := by
  unfold flushCsv
  rw [h]
  simp

/-- Flushing only appends to the accumulated observations. -/
theorem flushCsv_all_data (st : CsvState) :
    flushCsv st = st ∨
      (flushCsv st).all_data
        = st.all_data ++ process_cycle_data st.cycle (st.time.getD 0) := by
  unfold flushCsv; split
  · exact Or.inr rfl
  · exact Or.inl rfl

/-- The input on which C2 as stated fails: a time marker with an empty time
cell, followed by a data row and no further marker. -/
def c2Lines : List String := ["Time [s],0", "A,0.5", "Time [s],", "B,0.7"]

/-- C2, counterexample: on `c2Lines` the marker `Time [s],` yields a Missing
time, yet the subsequent row `B,0.7` is not discarded — it is emitted with
the previous block's time 0, so a data row after a Missing-time marker does
contribute an observation. -/
theorem c2_counterexample :
    process_csv_data c2Lines = some [⟨"A1", 0, 0, 5/10⟩, ⟨"B1", 0, 0, 7/10⟩] ∧
    (⟨"B1", 0, 0, 7/10⟩ : Obs) ∈ (process_csv_data c2Lines).getD [] := by
  constructor
  · with_unfolding_all rfl
  · with_unfolding_all decide

/-- C2, amended: a time marker whose cell is present but fails float
conversion unsets `current_time` and data rows are then discarded until the
next marker with a valid time; a marker whose time cell is absent or empty
leaves the previous `current_time` in force, so subsequent data rows join
the previous block's time.  Data rows seen while no time is set (in
particular before the first valid marker) are discarded, and observations
are only ever accumulated while a time is resolved.  On the Excel path a
marker row whose time cell does not convert starts no cycle at all. -/
theorem c2_missing_time_marker :
    (∀ (st : CsvState) (line : String),
      (pyStartsWith line "Time [s]" = true →
        ∀ tok, csvTimeToken line = some tok → pyFloat? tok = none →
          (csvStep st line).time = none) ∧
      (pyStartsWith line "Time [s]" = true → csvTimeToken line = none →
          (csvStep st line).time = st.time) ∧
      (pyStartsWith line "Time [s]" = true →
        ∀ tok t, csvTimeToken line = some tok → pyFloat? tok = some t →
          (csvStep st line).time = some t) ∧
      (pyStartsWith line "Time [s]" = false → st.time = none →
          csvStep st line = st) ∧
      (st.time = none → (csvStep st line).all_data = st.all_data)) ∧
    (∀ (sh : Sheet) (idx : ℕ) (t : ℚ),
      isTimeMarkerCell (cellAt sh idx 0) = true →
      cellFloat? (cellAt sh idx 1) = none → (idx, t) ∉ excelCycles sh) := by
  constructor
  · intro st line
    refine ⟨?_, ?_, ?_, ?_, ?_⟩
    · intro hm tok htok hpf
      unfold csvStep
      rw [if_pos hm, htok]
      dsimp only
      rw [hpf]
    · intro hm htok
      unfold csvStep
      rw [if_pos hm, htok, flushCsv_time]
    · intro hm tok t htok hpf
      unfold csvStep
      rw [if_pos hm, htok]
      dsimp only
      rw [hpf]
    · intro hm ht
      unfold csvStep
      rw [if_neg (by simp [hm])]
      split
      · rw [ht]; simp
      · rfl
    · intro ht
      unfold csvStep
      split
      · rw [flushCsv_of_time_none ht]
        rcases htok : csvTimeToken line with _ | tok
        · rfl
        · rcases hpf : pyFloat? tok with _ | t <;> simp only [hpf]
      · split
        · rw [ht]; simp
        · rfl
  · intro sh idx t hm hf hmem
    unfold excelCycles at hmem
    rw [List.mem_filterMap] at hmem
    obtain ⟨i, _, hi⟩ := hmem
    by_cases hmi : isTimeMarkerCell (cellAt sh i 0) = true
    · rw [if_pos hmi, Option.map_eq_some'] at hi
      obtain ⟨t', hft', he⟩ := hi
      cases he
      rw [hf] at hft'
      exact Option.noConfusion hft'
    · rw [if_neg hmi] at hi
      exact Option.noConfusion hi

/-- Witness for the amended C2 at a concrete malformed marker: the line
`Time [s],abc` clears `current_time`. -/
theorem c2_missing_time_marker_witness :
    (csvStep ⟨[], [], none⟩ "Time [s],abc").time = none :=
  (c2_missing_time_marker.1 ⟨[], [], none⟩ "Time [s],abc").1 (by decide) "abc"
    (by decide) (by decide)

/-- Every observation a CSV cell produces records that cell's coordinates
and the cycle's times. -/
theorem cycleCellObs_mem {row_id : String} {t : ℚ} {p : ℕ × String} {o : Obs}
    (h : o ∈ cycleCellObs row_id t p) :
    o.well = row_id ++ toString p.1 ∧ o.time_s = t ∧ o.time_h = t / 3600 := by
  unfold cycleCellObs at h
  split at h
  · simp at h
  · rcases hf : pyFloat? p.2 with _ | od <;> rw [hf] at h
    · simp at h
    · simp only [List.mem_singleton] at h
      subst h
      exact ⟨rfl, rfl, rfl⟩

/-- A Missing token (empty, all-whitespace, or unconvertible) produces no
observation. -/
theorem cycleCellObs_of_missing {row_id : String} {t : ℚ} {p : ℕ × String}
    (h : p.2.data.isEmpty = true ∨ pyIsSpace p.2 = true ∨ pyFloat? p.2 = none) :
    cycleCellObs row_id t p = [] := by
  unfold cycleCellObs
  rcases h with h | h | h
  · rw [if_pos (by simp [h])]
  · rw [if_pos (by simp [h])]
  · split
    · rfl
    · rw [h]

/-- A token that converts produces exactly one observation. -/
theorem cycleCellObs_of_good {row_id : String} {t : ℚ} {p : ℕ × String} {g : ℚ}
    (he : p.2.data.isEmpty = false) (hs : pyIsSpace p.2 = false)
    (hf : pyFloat? p.2 = some g) :
    cycleCellObs row_id t p = [⟨row_id ++ toString p.1, t, t / 3600, g⟩] := by
  unfold cycleCellObs
  rw [if_neg (by simp [he, hs]), hf]

/-- A nonempty, non-whitespace token that fails conversion is warned about. -/
theorem cycleCellWarn_of_bad {p : ℕ × String}
    (he : p.2.data.isEmpty = false) (hs : pyIsSpace p.2 = false)
    (hf : pyFloat? p.2 = none) : cycleCellWarn p = [p.2] := by
  unfold cycleCellWarn
  rw [if_neg (by simp [he, hs]), hf]

/-- Splitting a CSV data row around a distinguished cell at 0-based offset
`pre.length` among the truncated 12 columns. -/
theorem cyclePartsObs_split {row_id x : String} {pre post : List String} {t : ℚ}
    (hrow : isRowLetterExact row_id = true) (hpre : pre.length < 12) :
    cyclePartsObs (row_id :: (pre ++ x :: post)) t
      = (List.enumFrom 1 pre).flatMap (cycleCellObs row_id t)
        ++ (cycleCellObs row_id t (1 + pre.length, x)
            ++ (List.enumFrom (1 + pre.length + 1)
                  (post.take (11 - pre.length))).flatMap (cycleCellObs row_id t)) := by
  unfold cyclePartsObs
  dsimp only
  rw [if_pos hrow]
  have h1 : (pre ++ x :: post).take 12 = pre ++ x :: post.take (11 - pre.length) := by
    rw [List.take_append_eq_append_take, List.take_of_length_le (le_of_lt hpre)]
    congr 1
    have h2 : 12 - pre.length = (11 - pre.length) + 1 := by omega
    rw [h2, List.take_succ_cons]
  rw [h1, List.enumFrom_append, List.enumFrom_cons, List.flatMap_append, List.flatMap_cons]

/-- The warning analogue of `cyclePartsObs_split`. -/
theorem cyclePartsWarn_split {row_id x : String} {pre post : List String}
    (hrow : isRowLetterExact row_id = true) (hpre : pre.length < 12) :
    cyclePartsWarn (row_id :: (pre ++ x :: post))
      = (List.enumFrom 1 pre).flatMap cycleCellWarn
        ++ (cycleCellWarn (1 + pre.length, x)
            ++ (List.enumFrom (1 + pre.length + 1)
                  (post.take (11 - pre.length))).flatMap cycleCellWarn) := by
  unfold cyclePartsWarn
  dsimp only
  rw [if_pos hrow]
  have h1 : (pre ++ x :: post).take 12 = pre ++ x :: post.take (11 - pre.length) := by
    rw [List.take_append_eq_append_take, List.take_of_length_le (le_of_lt hpre)]
    congr 1
    have h2 : 12 - pre.length = (11 - pre.length) + 1 := by omega
    rw [h2, List.take_succ_cons]
  rw [h1, List.enumFrom_append, List.enumFrom_cons, List.flatMap_append, List.flatMap_cons]

/-- Any observation coming out of an enumerated cell block carries a well
formed from the enumeration range. -/
theorem mem_flat_enum_well {row_id : String} {t : ℚ} {n : ℕ} {l : List String} {o : Obs}
    (h : o ∈ (List.enumFrom n l).flatMap (cycleCellObs row_id t)) :
    ∃ j, n ≤ j ∧ j < n + l.length ∧ o.well = row_id ++ toString j := by
  rw [List.mem_flatMap] at h
  obtain ⟨p, hp, ho⟩ := h
  obtain ⟨hwell, -, -⟩ := cycleCellObs_mem ho
  obtain ⟨h1, h2, -⟩ := List.mem_enumFrom hp
  exact ⟨p.1, h1, h2, hwell⟩

/-- C3: in any cycle row, at any well position, an OD token that is empty,
all-whitespace, or fails float conversion makes that well absent from the
cycle's output (there is no null-OD row type at all), makes the row's
observation count exactly one less than with a parseable token in that
position, and — when the token was nonempty and non-whitespace, i.e. when
`float` actually raised — puts the offending token into the emitted
warnings.  The token parser itself is a total function, so no exception
escapes it and the run never aborts on a token.  On the Excel path an
unconvertible string cell likewise yields no observation and a warning
naming the cell, and a blank cell yields neither. -/
theorem c3_missing_od_token :
    (∀ (row_id bad good : String) (pre post : List String) (t g : ℚ),
      isRowLetterExact row_id = true →
      pre.length < 12 →
      (bad.data.isEmpty = true ∨ pyIsSpace bad = true ∨ pyFloat? bad = none) →
      good.data.isEmpty = false → pyIsSpace good = false → pyFloat? good = some g →
      (∀ o ∈ cyclePartsObs (row_id :: (pre ++ bad :: post)) t,
          o.well ≠ row_id ++ toString (pre.length + 1)) ∧
      (cyclePartsObs (row_id :: (pre ++ good :: post)) t).length
        = (cyclePartsObs (row_id :: (pre ++ bad :: post)) t).length + 1 ∧
      (bad.data.isEmpty = false → pyIsSpace bad = false →
          bad ∈ cyclePartsWarn (row_id :: (pre ++ bad :: post)))) ∧
    (∀ (rid s : String) (t : ℚ) (j : ℕ), pyFloat? s = none →
      excelCellObs rid t j (Cell.str s) = [] ∧ excelCellWarn (Cell.str s) = [s]) ∧
    (∀ (rid : String) (t : ℚ) (j : ℕ),
      excelCellObs rid t j Cell.blank = [] ∧ excelCellWarn Cell.blank = []) := by
  refine ⟨?_, ?_, ?_⟩
  · intro row_id bad good pre post t g hrow hpre hbad hge hgs hgf
    refine ⟨?_, ?_, ?_⟩
    · intro o ho
      rw [cyclePartsObs_split hrow hpre, cycleCellObs_of_missing hbad,
        List.nil_append] at ho
      rcases List.mem_append.mp ho with hA | hB
      · obtain ⟨j, hj1, hj2, hw⟩ := mem_flat_enum_well hA
        rw [hw]
        exact strAppend_left_inj row_id
          (toString_inj_below13 j (by omega) (pre.length + 1) (by omega) (by omega))
      · obtain ⟨j, hj1, hj2, hw⟩ := mem_flat_enum_well hB
        have hlen : (post.take (11 - pre.length)).length ≤ 11 - pre.length := by
          rw [List.length_take]; omega
        rw [hw]
        exact strAppend_left_inj row_id
          (toString_inj_below13 j (by omega) (pre.length + 1) (by omega) (by omega))
    · rw [cyclePartsObs_split hrow hpre, cyclePartsObs_split hrow hpre,
        cycleCellObs_of_good hge hgs hgf, cycleCellObs_of_missing hbad]
      simp [List.length_append]
      omega
    · intro he hs
      have hf : pyFloat? bad = none := by
        rcases hbad with h | h | h
        · rw [he] at h; exact absurd h (by simp)
        · rw [hs] at h; exact absurd h (by simp)
        · exact h
      rw [cyclePartsWarn_split hrow hpre, cycleCellWarn_of_bad he hs hf]
      exact List.mem_append.mpr (Or.inr (List.mem_append.mpr (Or.inl (List.mem_singleton_self bad))))
  · intro rid s t j hf
    constructor
    · unfold excelCellObs
      dsimp only
      show (match pyFloat? s with
        | some od => [(⟨rid ++ toString j, t, t / 3600, od⟩ : Obs)]
        | none => []) = []
      rw [hf]
    · unfold excelCellWarn
      dsimp only
      rw [hf]
  · intro rid t j
    exact ⟨rfl, rfl⟩

/-- Witness for C3 at a concrete row: replacing the unparseable token `abc`
by `0.5` in row A makes the cycle's output exactly one observation longer. -/
theorem c3_missing_od_token_witness :
    (cyclePartsObs ["A", "0.5"] 0).length = (cyclePartsObs ["A", "abc"] 0).length + 1 :=
  ((c3_missing_od_token.1 "A" "abc" "0.5" [] [] 0 (mkRat 1 2) (by decide) (by decide)
      (Or.inr (Or.inr (by decide))) (by decide) (by decide) (by decide)).2).1

/-- Every observation of a processed cycle is built from a matched row
letter, a column 1–12, and the cycle's time. -/
theorem process_cycle_data_shape {rows : List String} {t : ℚ} {o : Obs}
    (h : o ∈ process_cycle_data rows t) :
    ∃ (row_id : String) (j : ℕ), isRowLetterExact row_id = true ∧
      1 ≤ j ∧ j ≤ 12 ∧ o.well = row_id ++ toString j ∧
      o.time_s = t ∧ o.time_h = t / 3600 := by
  unfold process_cycle_data at h
  rw [List.mem_flatMap] at h
  obtain ⟨line, -, h⟩ := h
  unfold cyclePartsObs at h
  rcases hp : pySplitComma (pyStrip line) with _ | ⟨row_id, rest⟩ <;> rw [hp] at h
  · simp at h
  · dsimp only at h
    by_cases hrow : isRowLetterExact row_id = true
    · rw [if_pos hrow, List.mem_flatMap] at h
      obtain ⟨p, hp', ho⟩ := h
      obtain ⟨hw, hts, hth⟩ := cycleCellObs_mem ho
      obtain ⟨h1, h2, -⟩ := List.mem_enumFrom hp'
      have h3 : (rest.take 12).length ≤ 12 := by rw [List.length_take]; omega
      exact ⟨row_id, p.1, hrow, h1, by omega, hw, hts, hth⟩
    · rw [if_neg hrow] at h
      simp at h

/-- One step of the CSV loop either keeps the accumulated observations or
appends the processed open cycle to them. -/
theorem csvStep_all_data (st : CsvState) (line : String) :
    (csvStep st line).all_data = st.all_data ∨
      (csvStep st line).all_data
        = st.all_data ++ process_cycle_data st.cycle (st.time.getD 0) := by
  have hf : (flushCsv st).all_data = st.all_data ∨
      (flushCsv st).all_data
        = st.all_data ++ process_cycle_data st.cycle (st.time.getD 0) := by
    rcases flushCsv_all_data st with he | he
    · left; rw [he]
    · right; exact he
  unfold csvStep
  split
  · rcases csvTimeToken line with _ | tok
    · exact hf
    · dsimp only
      rcases pyFloat? tok with _ | t <;> exact hf
  · split
    · split
      · left; rfl
      · left; rfl
    · left; rfl

/-- An invariant of cycle outputs propagates through the CSV line loop. -/
theorem foldl_csvStep_prop (P : Obs → Prop)
    (hP : ∀ rows t, ∀ o ∈ process_cycle_data rows t, P o) :
    ∀ (lines : List String) (st : CsvState), (∀ o ∈ st.all_data, P o) →
      ∀ o ∈ (lines.foldl csvStep st).all_data, P o := by
  intro lines
  induction lines with
  | nil => intro st hst; exact hst
  | cons l ls ih =>
    intro st hst
    apply ih
    intro o ho
    rcases csvStep_all_data st l with he | he <;> rw [he] at ho
    · exact hst o ho
    · rcases List.mem_append.mp ho with h' | h'
      · exact hst o h'
      · exact hP _ _ o h'

/-- An invariant of cycle outputs holds for every row of a successful
`process_csv_data` run. -/
theorem process_csv_data_prop (P : Obs → Prop)
    (hP : ∀ rows t, ∀ o ∈ process_cycle_data rows t, P o)
    {lines : List String} {l : List Obs} (h : process_csv_data lines = some l) :
    ∀ o ∈ l, P o := by
  unfold process_csv_data at h
  rcases het : extract_time_values lines with _ | tv <;> rw [het] at h
  · exact absurd h (by simp)
  · dsimp only at h
    split at h
    · exact absurd h (by simp)
    · have hl := Option.some.inj h
      have hfold : ∀ o ∈ (lines.foldl csvStep ⟨[], [], none⟩).all_data, P o :=
        foldl_csvStep_prop P hP lines ⟨[], [], none⟩ (by simp)
      intro o ho
      rw [← hl] at ho
      rcases flushCsv_all_data (lines.foldl csvStep ⟨[], [], none⟩) with he | he
      · rw [he] at ho
        exact hfold o ho
      · rw [he] at ho
        rcases List.mem_append.mp ho with h' | h'
        · exact hfold o h'
        · exact hP _ _ o h'

/-- Every observation of an Excel cell records its coordinates and times. -/
theorem excelCellObs_shape {rid : String} {t : ℚ} {j : ℕ} {c : Cell} {o : Obs}
    (h : o ∈ excelCellObs rid t j c) :
    o.well = rid ++ toString j ∧ o.time_s = t ∧ o.time_h = t / 3600 := by
  unfold excelCellObs cellFloat? at h
  rcases c with s | q | _
  · dsimp only at h
    rcases hps : pyFloat? s with _ | od <;> rw [hps] at h
    · simp at h
    · simp only [List.mem_singleton] at h
      subst h
      exact ⟨rfl, rfl, rfl⟩
  · dsimp only at h
    simp only [List.mem_singleton] at h
    subst h
    exact ⟨rfl, rfl, rfl⟩
  · simp at h

/-- Every observation of an Excel data row is built from a matched row
letter, a column 1–12, and the cycle's time. -/
theorem excelRowObs_shape {sh : Sheet} {t : ℚ} {row_idx : ℕ} {o : Obs}
    (h : o ∈ excelRowObs sh t row_idx) :
    ∃ (rid : String) (j : ℕ), isRowLetterExact rid = true ∧
      1 ≤ j ∧ j ≤ 12 ∧ o.well = rid ++ toString j ∧
      o.time_s = t ∧ o.time_h = t / 3600 := by
  unfold excelRowObs at h
  rcases hc : cellAt sh row_idx 0 with s | q | _ <;> rw [hc] at h
  · dsimp only at h
    by_cases hrow : isRowLetterExact (pyStrip s) = true
    · rw [if_pos hrow, List.mem_flatMap] at h
      obtain ⟨col, hcol, ho⟩ := h
      obtain ⟨hw, hts, hth⟩ := excelCellObs_shape ho
      obtain ⟨i, hi, heq⟩ := List.mem_range'.mp hcol
      have hmin : min 13 (ncols sh) ≤ 13 := min_le_left _ _
      exact ⟨pyStrip s, col, hrow, by omega, by omega, hw, hts, hth⟩
    · rw [if_neg hrow] at h
      simp at h
  · simp at h
  · simp at h

/-- Every observation of one sheet is built from a matched row letter, a
column 1–12, and one of the sheet's cycle times. -/
theorem excelSheetObs_shape {sh : Sheet} {o : Obs} (h : o ∈ excelSheetObs sh) :
    ∃ (rid : String) (j : ℕ) (t : ℚ), isRowLetterExact rid = true ∧
      1 ≤ j ∧ j ≤ 12 ∧ o.well = rid ++ toString j ∧
      o.time_s = t ∧ o.time_h = t / 3600 := by
  unfold excelSheetObs at h
  rw [List.mem_flatMap] at h
  obtain ⟨p, -, h⟩ := h
  unfold excelCycleObs at h
  rcases hds : findDataStart sh p.1 with _ | ds <;> rw [hds] at h
  · simp at h
  · rw [List.mem_flatMap] at h
    obtain ⟨ri, -, h⟩ := h
    obtain ⟨rid, j, hrow, h1, h2, hw, hts, hth⟩ := excelRowObs_shape h
    exact ⟨rid, j, p.2, hrow, h1, h2, hw, hts, hth⟩

/-- Every row of a successful `process_excel_data` run comes from some
sheet's extraction. -/
theorem process_excel_data_shape {sheets : List Sheet} {l : List Obs} {o : Obs}
    (h : process_excel_data sheets = some l) (ho : o ∈ l) :
    ∃ (rid : String) (j : ℕ) (t : ℚ), isRowLetterExact rid = true ∧
      1 ≤ j ∧ j ≤ 12 ∧ o.well = rid ++ toString j ∧
      o.time_s = t ∧ o.time_h = t / 3600 := by
  unfold process_excel_data at h
  dsimp only at h
  split at h
  · exact absurd h (by simp)
  · have hl := Option.some.inj h
    rw [← hl, List.mem_flatMap] at ho
    obtain ⟨sh, -, ho⟩ := ho
    exact excelSheetObs_shape ho

/-- C4: every observation either input path produces has a well identifier
that is a row letter A–H concatenated with the numeral of a column 1–12
(no leading zero); and on the spreadsheet path the data grid is located at
most 10 rows after a time marker (the bound on the 8-row window and on the
columns `1 .. min(12, available)` is what the shape lemmas' `1 ≤ j ≤ 12`
rests on). -/
theorem c4_well_format :
    (∀ (lines : List String) (l : List Obs), process_csv_data lines = some l →
        ∀ o ∈ l, wellOk o.well) ∧
    (∀ (sheets : List Sheet) (l : List Obs), process_excel_data sheets = some l →
        ∀ o ∈ l, wellOk o.well) ∧
    (∀ (sh : Sheet) (i j : ℕ), findDataStart sh i = some j → i ≤ j ∧ j < i + 10) := by
  refine ⟨?_, ?_, ?_⟩
  · intro lines l h o ho
    refine process_csv_data_prop (fun o => wellOk o.well) ?_ h o ho
    intro rows t o' ho'
    obtain ⟨rid, j, hrow, hj1, hj2, hw, -, -⟩ := process_cycle_data_shape ho'
    obtain ⟨c, hc1, hc2, hsing⟩ := isRowLetterExact_iff hrow
    exact ⟨c, j, hc1, hc2, hj1, hj2, by rw [hw, hsing]⟩
  · intro sheets l h o ho
    obtain ⟨rid, j, t, hrow, hj1, hj2, hw, -, -⟩ := process_excel_data_shape h ho
    obtain ⟨c, hc1, hc2, hsing⟩ := isRowLetterExact_iff hrow
    exact ⟨c, j, hc1, hc2, hj1, hj2, by rw [hw, hsing]⟩
  · intro sh i j h
    unfold findDataStart at h
    have hm := List.mem_of_find?_eq_some h
    obtain ⟨k, hk, he⟩ := List.mem_range'.mp hm
    have : min 10 (nrows sh - i) ≤ 10 := min_le_left _ _
    omega

set_option maxRecDepth 2000 in
/-- Witness for C4 on the concrete scenario run: the first scenario row's
well is within the legal coordinate space. -/
theorem c4_well_format_witness : wellOk "A1" := by
  have h : process_csv_data scenLines = some scenObs := by with_unfolding_all rfl
  have hm : (⟨"A1", 0, 0, 1/10⟩ : Obs) ∈ scenObs := by
    unfold scenObs
    exact List.mem_cons_self _ _
  exact c4_well_format.1 scenLines scenObs h ⟨"A1", 0, 0, 1/10⟩ hm

/-- C5: every row of the assembled table, on both input paths and including
rows with time zero, has `Time_h` equal to `Time_s / 3600`.  The code stores
`time_value` and `time_value / 3600.0` side by side, so the identity holds
under the arithmetic of the host (here modelled exactly over `ℚ`; in the
program the same single IEEE-754 double division produces the stored
field). -/
theorem c5_time_h_ratio :
    (∀ (lines : List String) (l : List Obs), process_csv_data lines = some l →
        ∀ o ∈ l, o.time_h = o.time_s / 3600) ∧
    (∀ (sheets : List Sheet) (l : List Obs), process_excel_data sheets = some l →
        ∀ o ∈ l, o.time_h = o.time_s / 3600) := by
  constructor
  · intro lines l h o ho
    refine process_csv_data_prop (fun o => o.time_h = o.time_s / 3600) ?_ h o ho
    intro rows t o' ho'
    obtain ⟨-, -, -, -, -, -, hts, hth⟩ := process_cycle_data_shape ho'
    rw [hth, hts]
  · intro sheets l h o ho
    obtain ⟨-, -, t, -, -, -, -, hts, hth⟩ := process_excel_data_shape h ho
    rw [hth, hts]

set_option maxRecDepth 2000 in
/-- Witness for C5 on the concrete scenario run: the fourth scenario row has
`Time_h = 1 = 3600 / 3600`. -/
theorem c5_time_h_ratio_witness : (1 : ℚ) = 3600 / 3600 := by
  have h : process_csv_data scenLines = some scenObs := by with_unfolding_all rfl
  have hm : (⟨"A1", 3600, 1, 15/100⟩ : Obs) ∈ scenObs := by
    unfold scenObs
    exact List.mem_cons_of_mem _ (List.mem_cons_of_mem _ (List.mem_cons_of_mem _
      (List.mem_cons_self _ _)))
  exact c5_time_h_ratio.1 scenLines scenObs h ⟨"A1", 3600, 1, 15/100⟩ hm

/-- A sheet without any time-marker row yields no cycles. -/
theorem excelCycles_eq_nil {sh : Sheet}
    (h : ∀ i < nrows sh, isTimeMarkerCell (cellAt sh i 0) = false) :
    excelCycles sh = [] := by
  unfold excelCycles
  rw [List.filterMap_eq_nil_iff]
  intro i hi
  rw [List.mem_range] at hi
  rw [if_neg (by rw [h i hi]; simp)]

/-- A sheet without any time-marker row contributes no observations. -/
theorem excelSheetObs_eq_nil {sh : Sheet}
    (h : ∀ i < nrows sh, isTimeMarkerCell (cellAt sh i 0) = false) :
    excelSheetObs sh = [] := by
  unfold excelSheetObs
  rw [excelCycles_eq_nil h]
  rfl

/-- C6: an input with no time markers at all is fatal — a CSV with no
`Time [s]` line aborts, and so does a workbook in which no sheet has a
marker row; neither path can ever return an empty table (no observations
extracted is also fatal, with nothing to write).  But one marker-free sheet
among others is non-fatal: it contributes zero rows and the run is exactly
the run over the remaining sheets, whose results are concatenated. -/
theorem c6_fatal_inputs :
    (∀ lines : List String, (∀ l ∈ lines, pyStartsWith l "Time [s]" = false) →
        process_csv_data lines = none) ∧
    (∀ sheets : List Sheet, (∀ sh ∈ sheets, ∀ i < nrows sh,
        isTimeMarkerCell (cellAt sh i 0) = false) →
        process_excel_data sheets = none) ∧
    (∀ (s : Sheet) (rest : List Sheet), (∀ i < nrows s,
        isTimeMarkerCell (cellAt s i 0) = false) →
        process_excel_data (s :: rest) = process_excel_data rest) ∧
    (∀ lines : List String, process_csv_data lines ≠ some []) ∧
    (∀ sheets : List Sheet, process_excel_data sheets ≠ some []) := by
  refine ⟨?_, ?_, ?_, ?_, ?_⟩
  · intro lines h
    unfold process_csv_data extract_time_values
    rw [List.filter_eq_nil_iff.mpr (by intro a ha; rw [h a ha]; simp)]
  · intro sheets h
    unfold process_excel_data
    have hflat : sheets.flatMap excelSheetObs = [] := by
      rw [List.flatMap_eq_nil_iff]
      intro sh hsh
      exact excelSheetObs_eq_nil (h sh hsh)
    rw [hflat]
    rfl
  · intro s rest h
    unfold process_excel_data
    rw [List.flatMap_cons, excelSheetObs_eq_nil h, List.nil_append]
  · intro lines hc
    unfold process_csv_data at hc
    rcases het : extract_time_values lines with _ | tv <;> rw [het] at hc
    · exact Option.noConfusion hc
    · dsimp only at hc
      split at hc
      · exact Option.noConfusion hc
      · rename_i hne
        have := Option.some.inj hc
        rw [this] at hne
        exact hne rfl
  · intro sheets hc
    unfold process_excel_data at hc
    dsimp only at hc
    split at hc
    · exact Option.noConfusion hc
    · rename_i hne
      have := Option.some.inj hc
      rw [this] at hne
      exact hne rfl

/-- Witness for C6 at a concrete workbook: a single sheet whose only row is
a stray label has no time markers, so the whole run is fatal. -/
theorem c6_fatal_inputs_witness :
    process_excel_data [[[Cell.str "label"]]] = none :=
  c6_fatal_inputs.2.1 [[[Cell.str "label"]]] (by decide)

/-- The `pdUnique` fold keeps exactly the elements seen, starting from any
accumulator. -/
theorem pdUnique_fold_mem (l : List String) :
    ∀ (acc : List String) (w : String),
      w ∈ l.foldl (fun acc w => if w ∈ acc then acc else acc ++ [w]) acc ↔
        w ∈ acc ∨ w ∈ l := by
  induction l with
  | nil => intro acc w; simp
  | cons x xs ih =>
    intro acc w
    rw [List.foldl_cons, ih]
    by_cases hx : x ∈ acc
    · rw [if_pos hx]
      constructor
      · rintro (h | h)
        · exact Or.inl h
        · exact Or.inr (List.mem_cons_of_mem x h)
      · rintro (h | h)
        · exact Or.inl h
        · rcases List.mem_cons.mp h with he | h
          · exact Or.inl (he ▸ hx)
          · exact Or.inr h
    · rw [if_neg hx]
      constructor
      · rintro (h | h)
        · rcases List.mem_append.mp h with h | h
          · exact Or.inl h
          · exact Or.inr (List.mem_cons.mpr (Or.inl (List.mem_singleton.mp h)))
        · exact Or.inr (List.mem_cons_of_mem x h)
      · rintro (h | h)
        · exact Or.inl (List.mem_append.mpr (Or.inl h))
        · rcases List.mem_cons.mp h with he | h
          · exact Or.inl (List.mem_append.mpr (Or.inr (by simp [he])))
          · exact Or.inr h

/-- The `pdUnique` fold preserves freedom from duplicates. -/
theorem pdUnique_fold_nodup (l : List String) :
    ∀ acc : List String, acc.Nodup →
      (l.foldl (fun acc w => if w ∈ acc then acc else acc ++ [w]) acc).Nodup := by
  induction l with
  | nil => intro acc h; exact h
  | cons x xs ih =>
    intro acc h
    rw [List.foldl_cons]
    by_cases hx : x ∈ acc
    · rw [if_pos hx]
      exact ih acc h
    · rw [if_neg hx]
      refine ih _ ?_
      rw [List.nodup_append]
      exact ⟨h, List.nodup_singleton x, by simpa using hx⟩

/-- What pandas `unique` returns: each input element once. -/
theorem pdUnique_mem (l : List String) (w : String) : w ∈ pdUnique l ↔ w ∈ l := by
  unfold pdUnique
  rw [pdUnique_fold_mem]
  simp

/-- Pandas `unique` returns no duplicates. -/
theorem pdUnique_nodup (l : List String) : (pdUnique l).Nodup :=
  pdUnique_fold_nodup l [] List.nodup_nil

/-- C7: the condition annotation is a left join on the `Well` key.  Every
observation row survives into the annotated output; a matching mapping row
supplies its condition; a well with no mapping entry keeps a null condition;
every output row projects back onto an input observation, so a mapping entry
whose well never occurs in the data contributes no row; and the warned-about
unmatched wells are exactly the condition-less wells of the result, without
duplicates. -/
theorem c7_left_join_semantics : ∀ (data : List Obs) (mapping : List MapRow),
    (∀ o ∈ data, ∃ oc ∈ merge_with_conditions data mapping, obsOf oc = o) ∧
    (∀ o ∈ data, ∀ m ∈ mapping, m.well = o.well →
        (⟨o.well, o.time_s, o.time_h, o.od, some m.condition⟩ : ObsC)
          ∈ merge_with_conditions data mapping) ∧
    (∀ o ∈ data, (∀ m ∈ mapping, m.well ≠ o.well) →
        (⟨o.well, o.time_s, o.time_h, o.od, none⟩ : ObsC)
          ∈ merge_with_conditions data mapping) ∧
    (∀ oc ∈ merge_with_conditions data mapping, obsOf oc ∈ data) ∧
    (∀ m ∈ mapping, (∀ o ∈ data, o.well ≠ m.well) →
        ∀ oc ∈ merge_with_conditions data mapping, oc.well ≠ m.well) ∧
    (unmappedWells (merge_with_conditions data mapping)).Nodup ∧
    (∀ w, w ∈ unmappedWells (merge_with_conditions data mapping) ↔
        ∃ oc ∈ merge_with_conditions data mapping,
          oc.condition = none ∧ oc.well = w) := by
  intro data mapping
  refine ⟨?_, ?_, ?_, ?_, ?_, ?_, ?_⟩
  · intro o ho
    unfold merge_with_conditions
    by_cases hms : (mapping.filter fun m => m.well = o.well).isEmpty = true
    · refine ⟨⟨o.well, o.time_s, o.time_h, o.od, none⟩, ?_, rfl⟩
      rw [List.mem_flatMap]
      exact ⟨o, ho, by rw [if_pos hms]; simp⟩
    · rcases hf : mapping.filter fun m => m.well = o.well with _ | ⟨m, ms⟩
      · rw [hf] at hms; simp at hms
      · refine ⟨⟨o.well, o.time_s, o.time_h, o.od, some m.condition⟩, ?_, rfl⟩
        rw [List.mem_flatMap]
        refine ⟨o, ho, ?_⟩
        rw [if_neg hms, hf]
        exact List.mem_map.mpr ⟨m, List.mem_cons_self _ _, rfl⟩
  · intro o ho m hm hwell
    unfold merge_with_conditions
    rw [List.mem_flatMap]
    refine ⟨o, ho, ?_⟩
    have hmem : m ∈ mapping.filter fun m => m.well = o.well :=
      List.mem_filter.mpr ⟨hm, by simp [hwell]⟩
    rw [if_neg (by intro he; rw [List.isEmpty_iff] at he; rw [he] at hmem; simp at hmem)]
    exact List.mem_map.mpr ⟨m, hmem, rfl⟩
  · intro o ho hnone
    unfold merge_with_conditions
    rw [List.mem_flatMap]
    refine ⟨o, ho, ?_⟩
    have hf : (mapping.filter fun m => m.well = o.well) = [] :=
      List.filter_eq_nil_iff.mpr (by intro m hm; simp [hnone m hm])
    rw [if_pos (by rw [hf]; rfl)]
    simp
  · intro oc hoc
    unfold merge_with_conditions at hoc
    rw [List.mem_flatMap] at hoc
    obtain ⟨o, ho, hoc⟩ := hoc
    dsimp only at hoc
    split at hoc
    · simp only [List.mem_singleton] at hoc
      subst hoc
      exact ho
    · rw [List.mem_map] at hoc
      obtain ⟨m, -, hoc⟩ := hoc
      subst hoc
      exact ho
  · intro m hm hnever oc hoc
    unfold merge_with_conditions at hoc
    rw [List.mem_flatMap] at hoc
    obtain ⟨o, ho, hoc⟩ := hoc
    dsimp only at hoc
    have : oc.well = o.well := by
      split at hoc
      · simp only [List.mem_singleton] at hoc
        subst hoc; rfl
      · rw [List.mem_map] at hoc
        obtain ⟨m', -, hoc⟩ := hoc
        subst hoc; rfl
    rw [this]
    exact hnever o ho
  · exact pdUnique_nodup _
  · intro w
    unfold unmappedWells
    rw [pdUnique_mem, List.mem_map]
    constructor
    · rintro ⟨oc, hoc, hw⟩
      rw [List.mem_filter] at hoc
      exact ⟨oc, hoc.1, by simpa using hoc.2, hw⟩
    · rintro ⟨oc, hoc, hcond, hw⟩
      exact ⟨oc, List.mem_filter.mpr ⟨hoc, by simp [hcond]⟩, hw⟩

/-- Witness for C7 at a concrete table and mapping: the matched well `A1`
carries its mapping's condition into the output. -/
theorem c7_left_join_semantics_witness :
    (⟨"A1", 0, 0, 1, some "glucose"⟩ : ObsC)
      ∈ merge_with_conditions [⟨"A1", 0, 0, 1⟩] [⟨"A1", "glucose"⟩] :=
  (c7_left_join_semantics [⟨"A1", 0, 0, 1⟩] [⟨"A1", "glucose"⟩]).2.1
    ⟨"A1", 0, 0, 1⟩ (List.mem_cons_self _ _) ⟨"A1", "glucose"⟩
    (List.mem_cons_self _ _) rfl

/-- C8: a mapping source that lacks the `Well` field or the `Condition`
field is rejected by `load_mapping` as a fatal error; since `main` loads the
mapping before touching the input, the whole run returns nothing — for every
possible input, CSV or Excel alike — so zero rows are processed, no join is
attempted and zero rows of output are produced. -/
theorem c8_mapping_missing_field : ∀ t : RawTable,
    ("Well" ∉ t.cols ∨ "Condition" ∉ t.cols) →
    load_mapping t = none ∧
    (∀ lines : List String, main_csv (some t) lines = none) ∧
    (∀ sheets : List Sheet, main_excel (some t) sheets = none) := by
  intro t h
  have hl : load_mapping t = none := by
    unfold load_mapping
    rw [if_neg ?_]
    rcases h with h | h <;> intro hc <;> [exact h hc.1; exact h hc.2]
  refine ⟨hl, ?_, ?_⟩
  · intro lines
    unfold main_csv
    dsimp only
    rw [hl]
  · intro sheets
    unfold main_excel
    dsimp only
    rw [hl]

/-- Witness for C8 at a concrete mapping table that has a `Well` column but
no `Condition` column, applied to the processable two-cycle scenario input:
the run still yields nothing. -/
theorem c8_mapping_missing_field_witness :
    main_csv (some ⟨["Well", "Cond"], [["A1", "x"]]⟩) scenLines = none :=
  (c8_mapping_missing_field ⟨["Well", "Cond"], [["A1", "x"]]⟩
    (Or.inr (by decide))).2.1 scenLines

/-- C9, counterexample: with a mapping that lists the same well twice, the
join is not idempotent — annotating one observation gives 2 rows, and
re-annotating that result against the same mapping gives 4 rows, so rows
are duplicated rather than preserved. -/
theorem c9_counterexample :
    (merge_with_conditions [⟨"A1", 0, 0, 1⟩] [⟨"A1", "x"⟩, ⟨"A1", "y"⟩]).length = 2 ∧
    (remerge_with_conditions
        (merge_with_conditions [⟨"A1", 0, 0, 1⟩] [⟨"A1", "x"⟩, ⟨"A1", "y"⟩])
        [⟨"A1", "x"⟩, ⟨"A1", "y"⟩]).length = 4 := by
  constructor <;> rfl

/-- Under duplicate-free mapping keys, a well selects at most one mapping
row. -/
theorem filter_well_of_nodup {mapping : List MapRow}
    (h : (mapping.map MapRow.well).Nodup) (w : String) :
    (mapping.filter fun m => m.well = w) = [] ∨
      ∃ m, (mapping.filter fun m => m.well = w) = [m] := by
  induction mapping with
  | nil => exact Or.inl rfl
  | cons m l ih =>
    rw [List.map_cons, List.nodup_cons] at h
    by_cases hw : m.well = w
    · right
      refine ⟨m, ?_⟩
      rw [List.filter_cons_of_pos (by simp [hw]), List.filter_eq_nil_iff.mpr ?_]
      intro m' hm' hc
      simp only [decide_eq_true_eq] at hc
      exact h.1 (by rw [← hw] at hc; exact hc ▸ List.mem_map_of_mem MapRow.well hm')
    · rw [List.filter_cons_of_neg (by simp [hw])]
      exact ih h.2

/-- C9, amended: the join is idempotent exactly when the mapping has at most
one entry per well.  With duplicate-free mapping keys, re-annotating an
annotated table against the same mapping yields one output row per existing
row, each carrying the same condition value again (pandas renames the two
condition columns `Condition_x`/`Condition_y`; the new value equals the old
one, so there is no duplication and no value drift).  With duplicate keys
the counterexample shows re-application multiplies matching rows instead. -/
theorem c9_idempotent_of_nodup_keys : ∀ (data : List Obs) (mapping : List MapRow),
    (mapping.map MapRow.well).Nodup →
    remerge_with_conditions (merge_with_conditions data mapping) mapping
      = (merge_with_conditions data mapping).map
          (fun oc => ⟨oc.well, oc.time_s, oc.time_h, oc.od, oc.condition, oc.condition⟩) := by
  intro data mapping h
  induction data with
  | nil => rfl
  | cons o d ih =>
    unfold merge_with_conditions
    rw [List.flatMap_cons]
    unfold remerge_with_conditions
    rw [List.flatMap_append, List.map_append]
    have hrest :
        (d.flatMap fun o =>
          let ms := mapping.filter fun m => m.well = o.well
          if ms.isEmpty then [⟨o.well, o.time_s, o.time_h, o.od, none⟩]
          else ms.map fun m => ⟨o.well, o.time_s, o.time_h, o.od, some m.condition⟩)
          = merge_with_conditions d mapping := rfl
    rw [hrest]
    unfold remerge_with_conditions at ih
    rw [ih]
    congr 1
    dsimp only
    rcases filter_well_of_nodup h o.well with hf | ⟨m, hf⟩
    · rw [hf]
      dsimp only [List.isEmpty_nil]
      rw [if_pos rfl, List.flatMap_cons]
      dsimp only
      rw [hf]
      dsimp only [List.isEmpty_nil]
      rw [if_pos rfl]
      rfl
    · rw [hf]
      dsimp only [List.isEmpty_cons]
      rw [if_neg (by simp), List.map_cons, List.map_nil, List.flatMap_cons]
      dsimp only
      rw [hf]
      dsimp only [List.isEmpty_cons]
      rw [if_neg (by simp), List.map_cons, List.map_nil]
      rfl

/-- Witness for the amended C9 at a concrete duplicate-free mapping: the
re-join reproduces each annotated row with its condition repeated. -/
theorem c9_idempotent_witness :
    remerge_with_conditions
        (merge_with_conditions [⟨"A1", 0, 0, 1⟩] [⟨"A1", "x"⟩]) [⟨"A1", "x"⟩]
      = (merge_with_conditions [⟨"A1", 0, 0, 1⟩] [⟨"A1", "x"⟩]).map
          (fun oc => ⟨oc.well, oc.time_s, oc.time_h, oc.od, oc.condition, oc.condition⟩) :=
  c9_idempotent_of_nodup_keys [⟨"A1", 0, 0, 1⟩] [⟨"A1", "x"⟩] (by decide)

/-- The join block a single observation contributes. -/
theorem merge_cons (o' : Obs) (d : List Obs) (mapping : List MapRow) :
    merge_with_conditions (o' :: d) mapping
      = (if (mapping.filter fun m => m.well = o'.well).isEmpty
          then [⟨o'.well, o'.time_s, o'.time_h, o'.od, none⟩]
          else (mapping.filter fun m => m.well = o'.well).map
            fun m => ⟨o'.well, o'.time_s, o'.time_h, o'.od, some m.condition⟩)
        ++ merge_with_conditions d mapping := by
  unfold merge_with_conditions
  rw [List.flatMap_cons]

/-- How many rows of one observation's join block project onto `o`. -/
theorem countP_block_obs (o' o : Obs) (mapping : List MapRow) :
    ((if (mapping.filter fun m => m.well = o'.well).isEmpty
        then [(⟨o'.well, o'.time_s, o'.time_h, o'.od, none⟩ : ObsC)]
        else (mapping.filter fun m => m.well = o'.well).map
          fun m => ⟨o'.well, o'.time_s, o'.time_h, o'.od, some m.condition⟩).countP
        fun oc => decide (obsOf oc = o))
      = if o' = o then max 1 (mapping.countP fun m => decide (m.well = o.well)) else 0 := by
  by_cases he : (mapping.filter fun m => m.well = o'.well).isEmpty = true
  · rw [if_pos he]
    have hcnt : (mapping.countP fun m => decide (m.well = o'.well)) = 0 := by
      rw [List.countP_eq_length_filter, List.isEmpty_iff.mp he]
      rfl
    by_cases ho : o' = o
    · subst ho
      simp [List.countP_cons, obsOf, hcnt]
    · simp only [List.countP_cons, List.countP_nil]
      rw [if_neg ho]
      have : obsOf ⟨o'.well, o'.time_s, o'.time_h, o'.od, none⟩ = o' := rfl
      simp [this, ho]
  · rw [if_neg he]
    rw [List.countP_map]
    by_cases ho : o' = o
    · subst ho
      rw [if_pos rfl]
      have hall : ((mapping.filter fun m => m.well = o'.well).countP
          ((fun oc => decide (obsOf oc = o')) ∘ fun m =>
            (⟨o'.well, o'.time_s, o'.time_h, o'.od, some m.condition⟩ : ObsC)))
          = (mapping.filter fun m => m.well = o'.well).length := by
        rw [List.countP_eq_length]
        intro m hm
        simp [Function.comp, obsOf]
      rw [hall, ← List.countP_eq_length_filter]
      have hpos : 0 < (mapping.countP fun m => decide (m.well = o'.well)) := by
        rw [List.countP_eq_length_filter]
        rcases hf : mapping.filter fun m => m.well = o'.well with _ | ⟨m, ms⟩
        · rw [hf] at he; simp at he
        · rw [hf]; simp
      omega
    · rw [if_neg ho]
      rw [List.countP_eq_zero]
      intro m hm
      simp [Function.comp, obsOf, ho]

/-- How many rows of one observation's join block project onto `o` with a
given condition value. -/
theorem countP_block_cond (o' o : Obs) (c : String) (mapping : List MapRow) :
    ((if (mapping.filter fun m => m.well = o'.well).isEmpty
        then [(⟨o'.well, o'.time_s, o'.time_h, o'.od, none⟩ : ObsC)]
        else (mapping.filter fun m => m.well = o'.well).map
          fun m => ⟨o'.well, o'.time_s, o'.time_h, o'.od, some m.condition⟩).countP
        fun oc => decide (obsOf oc = o) && decide (oc.condition = some c))
      = if o' = o
          then mapping.countP fun m => decide (m.well = o.well) && decide (m.condition = c)
          else 0 := by
  by_cases he : (mapping.filter fun m => m.well = o'.well).isEmpty = true
  · rw [if_pos he]
    have hz : (mapping.countP fun m => decide (m.well = o'.well) && decide (m.condition = c)) = 0 := by
      rw [List.countP_eq_zero]
      intro m hm hc
      have : m ∈ mapping.filter fun m => m.well = o'.well := by
        rw [List.mem_filter]
        simp only [Bool.and_eq_true, decide_eq_true_eq] at hc
        exact ⟨hm, by simp [hc.1]⟩
      rw [List.isEmpty_iff.mp he] at this
      simp at this
    by_cases ho : o' = o
    · subst ho
      simp [List.countP_cons, hz]
    · simp only [List.countP_cons, List.countP_nil]
      have : obsOf ⟨o'.well, o'.time_s, o'.time_h, o'.od, none⟩ = o' := rfl
      simp [this, ho]
  · rw [if_neg he]
    rw [List.countP_map]
    by_cases ho : o' = o
    · subst ho
      rw [if_pos rfl]
      have hstep : ((mapping.filter fun m => m.well = o'.well).countP
          ((fun oc => decide (obsOf oc = o') && decide (oc.condition = some c)) ∘ fun m =>
            (⟨o'.well, o'.time_s, o'.time_h, o'.od, some m.condition⟩ : ObsC)))
          = ((mapping.filter fun m => m.well = o'.well).countP
              fun m => decide (m.condition = c)) := by
        apply List.countP_congr
        intro m hm
        simp [Function.comp, obsOf]
      rw [hstep, List.countP_filter]
      apply List.countP_congr
      intro m hm
      simp [Bool.and_comm]
    · rw [if_neg ho]
      rw [List.countP_eq_zero]
      intro m hm
      simp [Function.comp, obsOf, ho]

/-- C10: the left join multiplies rows instead of picking a first-seen or
last-seen mapping entry.  For every observation value `o`, the annotated
table holds one row projecting onto `o` per copy of `o` in the data and per
matching mapping entry (one row with a null condition when there is no
matching entry), and, for every condition value `c`, exactly one row
(per copy of `o`) per mapping entry carrying well `o.well` and condition
`c`.  With `k ≥ 2` entries for the same well this is `k` copies of each
matching row. -/
theorem c10_join_multiplicity : ∀ (data : List Obs) (mapping : List MapRow) (o : Obs) (c : String),
    ((merge_with_conditions data mapping).countP fun oc => decide (obsOf oc = o))
      = (data.countP fun o2 => decide (o2 = o))
          * max 1 (mapping.countP fun m => decide (m.well = o.well)) ∧
    ((merge_with_conditions data mapping).countP
        fun oc => decide (obsOf oc = o) && decide (oc.condition = some c))
      = (data.countP fun o2 => decide (o2 = o))
          * (mapping.countP fun m => decide (m.well = o.well) && decide (m.condition = c)) := by
  intro data mapping o c
  induction data with
  | nil =>
    constructor <;> simp [merge_with_conditions]
  | cons o' d ih =>
    rw [merge_cons]
    constructor
    · rw [List.countP_append, countP_block_obs, ih.1, List.countP_cons]
      by_cases ho : o' = o
      · rw [if_pos ho, if_pos (by simp [ho])]
        ring
      · rw [if_neg ho, if_neg (by simp [ho])]
        ring
    · rw [List.countP_append, countP_block_cond, ih.2, List.countP_cons]
      by_cases ho : o' = o
      · rw [if_pos ho, if_pos (by simp [ho])]
        ring
      · rw [if_neg ho, if_neg (by simp [ho])]
        ring
